import Mathlib

/-!
Verification of the enemy-missile core of gym_missile_command
(src/gym_missile_command/game/enemy_missiles.py), shallowly embedded over
exact rational arithmetic.

Modelling conventions:
* A numpy row of the (N, 8) `enemy_missiles` array becomes a `Missile`
  record with the fields documented in the source: initial position
  (x0, y0), current position (x, y), final position (x1, y1), speed
  vector (vx, vy).
* The global `CONFIG` entries read by the module become an explicit
  `Config` record.
* The seeded `random.Random` generator becomes a stream `rng : ℕ → ℚ` of
  the successive outputs of `random()`, together with an index
  `rng_idx` into the stream held in the state.  `Random.uniform a b`
  in CPython returns `a + (b - a) * random()`, consuming one draw,
  which `uniform` mirrors.  Determinism of the generator given a seed
  is represented by the stream being a function of the seed.
* `np.sqrt` on nonnegative floats becomes an oracle `sqrtFn : ℚ → ℚ`
  supplied as a parameter; theorems assume of it only what they need
  (nonnegativity on nonnegative inputs, or exactness at the argument
  actually used).
* The `assert` statements of `set_start_pos_range` / `set_end_pos_range`
  become `Option`-valued results, `none` meaning the assertion fails and
  the state is not updated.
-/

/-- One enemy missile: a row of the (N, 8) array.  Fields as documented in
the source: (0) initial x, (1) initial y, (2) current x, (3) current y,
(4) final x, (5) final y, (6) horizontal speed vx, (7) vertical speed vy. -/
structure Missile where
  x0 : ℚ
  y0 : ℚ
  x : ℚ
  y : ℚ
  x1 : ℚ
  y1 : ℚ
  vx : ℚ
  vy : ℚ
  deriving DecidableEq, Repr

/-- The configuration entries consumed by the module: CONFIG.EPISODE.WIDTH,
CONFIG.EPISODE.HEIGHT, CONFIG.ENEMY_MISSILES.NUMBER,
CONFIG.ENEMY_MISSILES.PROBA_IN, CONFIG.ENEMY_MISSILES.SPEED. -/
structure Config where
  width : ℚ
  height : ℚ
  number : ℕ
  proba_in : ℚ
  speed : ℚ
  deriving DecidableEq, Repr

/-- The mutable state of the EnemyMissiles object: the two curriculum
queues, the two active ranges, the missile batch, the launch counter and
the number of random draws consumed so far by the seeded generator. -/
structure EnemyMissiles where
  start_pos_range_cur : List (ℚ × ℚ)
  end_pos_range_cur : List (ℚ × ℚ)
  start_pos_range : ℚ × ℚ
  end_pos_range : ℚ × ℚ
  enemy_missiles : List Missile
  nb_missiles_launched : ℕ
  rng_idx : ℕ
  deriving DecidableEq, Repr

/-- numpy sign: -1 on negatives, 0 at zero, 1 on positives. -/
def npSign (q : ℚ) : ℚ :=
  if q < 0 then -1 else if q = 0 then 0 else 1

/-- CPython Random.uniform: `a + (b - a) * random()`, consuming the draw
at index `i` of the stream. -/
def uniform (rng : ℕ → ℚ) (i : ℕ) (a b : ℚ) : ℚ :=
  a + (b - a) * rng i

/-- `__init__`: the queues default to a single full range when not
configured; the active ranges are popped from the front of each queue
(`pop(0)` fails on an empty queue, hence the `Option`).  The remaining
fields are only fully initialized by `reset`, which must follow. -/
def initEnemyMissiles (start_cfg end_cfg : Option (List (ℚ × ℚ))) :
    Option EnemyMissiles :=
  match start_cfg.getD [(-(1/2 : ℚ), (1/2 : ℚ))],
        end_cfg.getD [(-(1/2 : ℚ), (1/2 : ℚ))] with
  | s0 :: srest, e0 :: erest =>
      some { start_pos_range_cur := srest
             end_pos_range_cur := erest
             start_pos_range := s0
             end_pos_range := e0
             enemy_missiles := []
             nb_missiles_launched := 0
             rng_idx := 0 }
  | _, _ => none

/-- Pop the front of a curriculum queue, falling back to the full
(-0.5, 0.5) range when the queue is empty (the queue then stays empty). -/
def popOr (q : List (ℚ × ℚ)) : (ℚ × ℚ) × List (ℚ × ℚ) :=
  match q with
  | [] => ((-(1/2 : ℚ), (1/2 : ℚ)), [])
  | r :: rest => (r, rest)

/-- `advance_curriculum`: pop the next entry of each queue into the active
range when the queue is non-empty, else set the active range to the full
(-0.5, 0.5) span. -/
def advance_curriculum (s : EnemyMissiles) : EnemyMissiles :=
  { s with
    start_pos_range := (popOr s.start_pos_range_cur).1
    start_pos_range_cur := (popOr s.start_pos_range_cur).2
    end_pos_range := (popOr s.end_pos_range_cur).1
    end_pos_range_cur := (popOr s.end_pos_range_cur).2 }

/-- `set_start_pos_range`: two asserts requiring both bounds in
[-0.5, 0.5], then the assignment.  `none` models the assertion failing
(the state is left unchanged). -/
def set_start_pos_range (s : EnemyMissiles) (left right : ℚ) :
    Option EnemyMissiles :=
  if -(1/2 : ℚ) ≤ left ∧ left ≤ 1/2 ∧ -(1/2 : ℚ) ≤ right ∧ right ≤ 1/2 then
    some { s with start_pos_range := (left, right) }
  else
    none

/-- `set_end_pos_range`: same as `set_start_pos_range` for the end range. -/
def set_end_pos_range (s : EnemyMissiles) (left right : ℚ) :
    Option EnemyMissiles :=
  if -(1/2 : ℚ) ≤ left ∧ left ≤ 1/2 ∧ -(1/2 : ℚ) ≤ right ∧ right ≤ 1/2 then
    some { s with end_pos_range := (left, right) }
  else
    none

/-- The x0 drawn by `_launch_missile`:
`uniform(start_pos_range[0] * WIDTH, start_pos_range[1] * WIDTH)`. -/
def launch_x0 (cfg : Config) (rng : ℕ → ℚ) (s : EnemyMissiles) : ℚ :=
  uniform rng s.rng_idx (s.start_pos_range.1 * cfg.width)
    (s.start_pos_range.2 * cfg.width)

/-- The x1 drawn by `_launch_missile` (second uniform draw):
`uniform(end_pos_range[0] * WIDTH, end_pos_range[1] * WIDTH)`. -/
def launch_x1 (cfg : Config) (rng : ℕ → ℚ) (s : EnemyMissiles) : ℚ :=
  uniform rng (s.rng_idx + 1) (s.end_pos_range.1 * cfg.width)
    (s.end_pos_range.2 * cfg.width)

/-- The argument of the square root in `_launch_missile`:
`np.square(x1 - x0) + np.square(y1 - y0)`. -/
def launchNormSq (x0 y0 x1 y1 : ℚ) : ℚ :=
  (x1 - x0) ^ 2 + (y1 - y0) ^ 2

/-- The `norm` computed by `_launch_missile`:
`np.sqrt(np.square(x1 - x0) + np.square(y1 - y0))` with y0 = HEIGHT and
y1 = 0, the square root being the supplied oracle. -/
def launch_norm (cfg : Config) (sqrtFn : ℚ → ℚ) (rng : ℕ → ℚ)
    (s : EnemyMissiles) : ℚ :=
  sqrtFn (launchNormSq (launch_x0 cfg rng s) cfg.height
    (launch_x1 cfg rng s) 0)

/-- The new missile row appended by `_launch_missile`:
`[x0, y0, x0, y0, x1, y1, speed * (x1 - x0) / n, speed * (y1 - y0) / n]`. -/
def mkLaunchedMissile (speed x0 y0 x1 y1 n : ℚ) : Missile :=
  { x0 := x0
    y0 := y0
    x := x0
    y := y0
    x1 := x1
    y1 := y1
    vx := speed * ((x1 - x0) / n)
    vy := speed * ((y1 - y0) / n) }

/-- `_launch_missile`: draw the two endpoints (two uniform draws), compute
the norm and the speed vector, vstack the new row onto the batch and
increment the launch counter. -/
def launch_missile (cfg : Config) (sqrtFn : ℚ → ℚ) (rng : ℕ → ℚ)
    (s : EnemyMissiles) : EnemyMissiles :=
  { s with
    enemy_missiles := s.enemy_missiles ++
      [mkLaunchedMissile cfg.speed (launch_x0 cfg rng s) cfg.height
        (launch_x1 cfg rng s) 0 (launch_norm cfg sqrtFn rng s)]
    nb_missiles_launched := s.nb_missiles_launched + 1
    rng_idx := s.rng_idx + 2 }

/-- `reset`: empty the batch, zero the launch counter, reseed the
generator (the fresh generator is represented by restarting the draw
index; the stream itself is a function of the seed).  The curriculum
fields are untouched. -/
def reset (s : EnemyMissiles) : EnemyMissiles :=
  { s with
    enemy_missiles := []
    nb_missiles_launched := 0
    rng_idx := 0 }

/-- The movement phase of `step`, applied to one row: clamp each axis of
the speed vector by the remaining distance to the target, keep the sign,
and add the movement to the current position. -/
def moveMissile (m : Missile) : Missile :=
  { m with
    x := m.x + min (|m.vx|) (|m.x1 - m.x|) * npSign m.vx
    y := m.y + min (|m.vy|) (|m.y1 - m.y|) * npSign m.vy }

/-- `step`: (0) move all missiles, (1) when the launch counter is below
NUMBER, consume one `random()` draw and launch when it is at most
PROBA_IN, (2) delete the rows whose current position equals the final
position on both axes, and return `done`, true iff the batch is empty and
the launch counter equals NUMBER.  The `action` argument is unused, as in
the source. -/
def step (cfg : Config) (sqrtFn : ℚ → ℚ) (rng : ℕ → ℚ) (action : ℕ)
    (s : EnemyMissiles) : EnemyMissiles × Bool :=
  let moved := { s with enemy_missiles := s.enemy_missiles.map moveMissile }
  let launched :=
    if moved.nb_missiles_launched < cfg.number then
      if rng moved.rng_idx ≤ cfg.proba_in then
        launch_missile cfg sqrtFn rng { moved with rng_idx := moved.rng_idx + 1 }
      else
        { moved with rng_idx := moved.rng_idx + 1 }
    else
      moved
  let cleaned := { launched with
    enemy_missiles := launched.enemy_missiles.filter
      fun m => !decide (m.x = m.x1 ∧ m.y = m.y1) }
  (cleaned,
    cleaned.enemy_missiles.isEmpty && (cleaned.nb_missiles_launched == cfg.number))

/-- Apply `step` for each action of a list, threading the state. -/
def runSteps (cfg : Config) (sqrtFn : ℚ → ℚ) (rng : ℕ → ℚ)
    (s : EnemyMissiles) : List ℕ → EnemyMissiles
  | [] => s
  | a :: rest => runSteps cfg sqrtFn rng (step cfg sqrtFn rng a s).1 rest

/-- Run a list of actions, recording after every step the batch, the
launch counter and the returned done flag. -/
def stepTrace (cfg : Config) (sqrtFn : ℚ → ℚ) (rng : ℕ → ℚ)
    (s : EnemyMissiles) : List ℕ → List (List Missile × ℕ × Bool)
  | [] => []
  | a :: rest =>
      ((step cfg sqrtFn rng a s).1.enemy_missiles,
       (step cfg sqrtFn rng a s).1.nb_missiles_launched,
       (step cfg sqrtFn rng a s).2) ::
        stepTrace cfg sqrtFn rng (step cfg sqrtFn rng a s).1 rest

theorem runSteps_cons (cfg : Config) (sqrtFn : ℚ → ℚ) (rng : ℕ → ℚ)
    (s : EnemyMissiles) (a : ℕ) (rest : List ℕ) :
    runSteps cfg sqrtFn rng s (a :: rest) =
      runSteps cfg sqrtFn rng (step cfg sqrtFn rng a s).1 rest := rfl

theorem step_enemy_missiles_eq (cfg : Config) (sqrtFn : ℚ → ℚ) (rng : ℕ → ℚ)
    (action : ℕ) (s : EnemyMissiles) :
    (step cfg sqrtFn rng action s).1.enemy_missiles =
      (if s.nb_missiles_launched < cfg.number then
        if rng s.rng_idx ≤ cfg.proba_in then
          (s.enemy_missiles.map moveMissile) ++
            [mkLaunchedMissile cfg.speed
              (launch_x0 cfg rng { s with
                enemy_missiles := s.enemy_missiles.map moveMissile,
                rng_idx := s.rng_idx + 1 })
              cfg.height
              (launch_x1 cfg rng { s with
                enemy_missiles := s.enemy_missiles.map moveMissile,
                rng_idx := s.rng_idx + 1 })
              0
              (launch_norm cfg sqrtFn rng { s with
                enemy_missiles := s.enemy_missiles.map moveMissile,
                rng_idx := s.rng_idx + 1 })]
        else s.enemy_missiles.map moveMissile
      else s.enemy_missiles.map moveMissile).filter
        (fun m => !decide (m.x = m.x1 ∧ m.y = m.y1)) := by
  simp only [step, launch_missile]
  split_ifs <;> rfl

/-- C10: after every step call, no remaining missile sits exactly on its
target on both axes: the removal phase of the same call deletes every
impacted missile, so the exposed positions never include one. -/
theorem step_no_impacted_missile_remains (cfg : Config) (sqrtFn : ℚ → ℚ)
    (rng : ℕ → ℚ) (action : ℕ) (s : EnemyMissiles) :
    ∀ m ∈ (step cfg sqrtFn rng action s).1.enemy_missiles,
      ¬(m.x = m.x1 ∧ m.y = m.y1) := by
  intro m hm
  rw [step_enemy_missiles_eq] at hm
  have h := List.of_mem_filter hm
  simp only [Bool.not_eq_true', decide_eq_false_iff_not] at h
  exact h

/-- Concrete state used by several witnesses: empty curriculum queues,
degenerate active ranges pinned at x = 0. -/
def sW : EnemyMissiles :=
  { start_pos_range_cur := []
    end_pos_range_cur := []
    start_pos_range := (0, 0)
    end_pos_range := (0, 0)
    enemy_missiles := []
    nb_missiles_launched := 0
    rng_idx := 0 }

/-- Concrete configuration of the spec example scenario: one missile,
launch probability 1, speed 2, episode height 10. -/
def cfg6 : Config :=
  { width := 20, height := 10, number := 1, proba_in := 1, speed := 2 }

/-- Concrete random stream used in concrete runs: every draw is 1/2. -/
def rng6 : ℕ → ℚ := fun _ => 1/2

/-- Concrete square-root oracle for the example scenario: the only
argument ever passed is 100, whose square root is 10. -/
def sqrt6 : ℚ → ℚ := fun _ => 10

/-- The single missile of the example scenario at height yv: launched at
(0, 10), targeting (0, 0), purely vertical speed vector (0, -2). -/
def m6 (yv : ℚ) : Missile :=
  { x0 := 0, y0 := 10, x := 0, y := yv, x1 := 0, y1 := 0, vx := 0, vy := -2 }

/-- The scenario state while the missile is in flight at height yv. -/
def s6state (yv : ℚ) : EnemyMissiles :=
  { start_pos_range_cur := []
    end_pos_range_cur := []
    start_pos_range := (0, 0)
    end_pos_range := (0, 0)
    enemy_missiles := [m6 yv]
    nb_missiles_launched := 1
    rng_idx := 3 }

/-- The scenario state after the missile has impacted and been removed. -/
def s6done : EnemyMissiles :=
  { start_pos_range_cur := []
    end_pos_range_cur := []
    start_pos_range := (0, 0)
    end_pos_range := (0, 0)
    enemy_missiles := []
    nb_missiles_launched := 1
    rng_idx := 3 }

theorem scenario_tick1 (a : ℕ) :
    step cfg6 sqrt6 rng6 a (reset sW) = (s6state 10, false) := by
  norm_num [step, reset, sW, s6state, m6, cfg6, rng6, sqrt6, launch_missile,
    launch_x0, launch_x1, launch_norm, launchNormSq, mkLaunchedMissile,
    uniform, moveMissile, npSign, min_def, abs, List.filter]

theorem scenario_tick_move (a : ℕ) (yv : ℚ) (h2 : 2 < yv) :
    step cfg6 sqrt6 rng6 a (s6state yv) = (s6state (yv - 2), false) := by
  have habs : |yv| = yv := abs_of_nonneg (by linarith)
  have hmin : min (2 : ℚ) yv = 2 := min_eq_left (by linarith)
  have hne : ¬(yv + -2 = 0) := by intro h; linarith
  norm_num [step, s6state, m6, cfg6, moveMissile, npSign, habs, hmin,
    List.filter, hne]
  ring

theorem scenario_tick6 (a : ℕ) :
    step cfg6 sqrt6 rng6 a (s6state 2) = (s6done, true) := by
  norm_num [step, s6state, s6done, m6, cfg6, moveMissile, npSign, min_def, abs,
    List.filter]

/-- A state whose batch is empty with the launch counter at the
configured maximum stays that way and keeps returning done = true. -/
theorem step_done_state (cfg : Config) (sqrtFn : ℚ → ℚ) (rng : ℕ → ℚ)
    (a : ℕ) (s : EnemyMissiles) (hm : s.enemy_missiles = [])
    (hn : s.nb_missiles_launched = cfg.number) :
    (step cfg sqrtFn rng a s).1.enemy_missiles = [] ∧
    (step cfg sqrtFn rng a s).1.nb_missiles_launched = cfg.number ∧
    (step cfg sqrtFn rng a s).2 = true := by
  simp [step, hm, hn, List.filter]

theorem runSteps_done_state (cfg : Config) (sqrtFn : ℚ → ℚ) (rng : ℕ → ℚ)
    (s : EnemyMissiles) (hm : s.enemy_missiles = [])
    (hn : s.nb_missiles_launched = cfg.number) :
    ∀ acts, (runSteps cfg sqrtFn rng s acts).enemy_missiles = [] ∧
      (runSteps cfg sqrtFn rng s acts).nb_missiles_launched = cfg.number := by
  intro acts
  induction acts generalizing s with
  | nil => exact ⟨hm, hn⟩
  | cons a rest ih =>
      rw [runSteps_cons]
      obtain ⟨h1, h2, -⟩ := step_done_state cfg sqrtFn rng a s hm hn
      exact ih _ h1 h2

theorem runSteps_append (cfg : Config) (sqrtFn : ℚ → ℚ) (rng : ℕ → ℚ)
    (s : EnemyMissiles) (l1 l2 : List ℕ) :
    runSteps cfg sqrtFn rng s (l1 ++ l2) =
      runSteps cfg sqrtFn rng (runSteps cfg sqrtFn rng s l1) l2 := by
  induction l1 generalizing s with
  | nil => rfl
  | cons a rest ih => simp [runSteps_cons, ih]

/-- Witness for C10: in the example scenario, the missile present after
the second step call is strictly above its target. -/
theorem step_no_impacted_missile_remains_witness :
    ¬((m6 8).x = (m6 8).x1 ∧ (m6 8).y = (m6 8).y1) :=
  step_no_impacted_missile_remains cfg6 sqrt6 rng6 0
    (runSteps cfg6 sqrt6 rng6 (reset sW) [0]) (m6 8)
    (by
      have h : (step cfg6 sqrt6 rng6 0
          (runSteps cfg6 sqrt6 rng6 (reset sW) [0])).1.enemy_missiles = [m6 8] := by
        simp only [runSteps_cons, runSteps, scenario_tick1]
        rw [scenario_tick_move 0 10 (by norm_num)]
        norm_num [s6state, m6]
      rw [h]
      exact List.mem_singleton.mpr rfl)

/-- C8: the range setters fail exactly when a bound leaves [-1/2, 1/2]
(in particular at (3/5, 0)); on success the active range becomes exactly
the pair of arguments and nothing else changes; on failure no state is
produced (the assertion aborts before the assignment). -/
theorem set_pos_range_spec (s : EnemyMissiles) (left right : ℚ) :
    (set_start_pos_range s left right = none ↔
      ¬(-(1/2 : ℚ) ≤ left ∧ left ≤ 1/2 ∧ -(1/2 : ℚ) ≤ right ∧ right ≤ 1/2)) ∧
    (set_end_pos_range s left right = none ↔
      ¬(-(1/2 : ℚ) ≤ left ∧ left ≤ 1/2 ∧ -(1/2 : ℚ) ≤ right ∧ right ≤ 1/2)) ∧
    (∀ s2, set_start_pos_range s left right = some s2 →
      s2 = { s with start_pos_range := (left, right) }) ∧
    (∀ s2, set_end_pos_range s left right = some s2 →
      s2 = { s with end_pos_range := (left, right) }) ∧
    set_start_pos_range s (3/5) 0 = none := by
  refine ⟨?_, ?_, ?_, ?_, ?_⟩
  · unfold set_start_pos_range
    split_ifs with h
    · exact iff_of_false (by simp) (not_not_intro h)
    · exact iff_of_true rfl h
  · unfold set_end_pos_range
    split_ifs with h
    · exact iff_of_false (by simp) (not_not_intro h)
    · exact iff_of_true rfl h
  · intro s2 h2
    unfold set_start_pos_range at h2
    split_ifs at h2 with h
    exact (Option.some_injective _ h2).symm
  · intro s2 h2
    unfold set_end_pos_range at h2
    split_ifs at h2 with h
    exact (Option.some_injective _ h2).symm
  · unfold set_start_pos_range
    split_ifs with h
    · exfalso
      rcases h with ⟨-, h1, -⟩
      norm_num at h1
    · rfl

/-- Witness for C8: at the concrete state `sW`, setting (3/5, 0) fails
and setting (1/4, 1/2) succeeds with exactly that range. -/
theorem set_pos_range_spec_witness :
    set_start_pos_range sW (3/5) 0 = none ∧
    ∀ s2, set_start_pos_range sW (1/4) (1/2) = some s2 →
      s2 = { sW with start_pos_range := (1/4, 1/2) } :=
  ⟨(set_pos_range_spec sW (3/5) 0).2.2.2.2,
   (set_pos_range_spec sW (1/4) (1/2)).2.2.1⟩

theorem scenario_run5 :
    runSteps cfg6 sqrt6 rng6 (reset sW) [0, 0, 0, 0, 0] = s6state 2 := by
  have e1 := scenario_tick1 0
  have e2 := scenario_tick_move 0 10 (by norm_num)
  have e3 := scenario_tick_move 0 8 (by norm_num)
  have e4 := scenario_tick_move 0 6 (by norm_num)
  have e5 := scenario_tick_move 0 4 (by norm_num)
  norm_num at e2 e3 e4 e5
  simp only [runSteps_cons, runSteps, e1, e2, e3, e4, e5]

theorem scenario_run6 :
    runSteps cfg6 sqrt6 rng6 (reset sW) [0, 0, 0, 0, 0, 0] = s6done := by
  rw [show ([0, 0, 0, 0, 0, 0] : List ℕ) = [0, 0, 0, 0, 0] ++ [0] from rfl,
    runSteps_append, scenario_run5]
  simp only [runSteps_cons, runSteps, scenario_tick6]

/-- C2: step returns done = true exactly when, at return time, the batch
is empty and the launch counter equals the configured NUMBER; and once a
step has returned true, every later step keeps returning true (until a
reset replaces the state). -/
theorem done_iff_empty_and_max (cfg : Config) (sqrtFn : ℚ → ℚ) (rng : ℕ → ℚ) :
    (∀ a s, (step cfg sqrtFn rng a s).2 = true ↔
      ((step cfg sqrtFn rng a s).1.enemy_missiles = [] ∧
       (step cfg sqrtFn rng a s).1.nb_missiles_launched = cfg.number)) ∧
    (∀ a s, (step cfg sqrtFn rng a s).2 = true →
      ∀ acts a2,
        (step cfg sqrtFn rng a2
          (runSteps cfg sqrtFn rng (step cfg sqrtFn rng a s).1 acts)).2 = true) := by
  have hiff : ∀ a s, (step cfg sqrtFn rng a s).2 = true ↔
      ((step cfg sqrtFn rng a s).1.enemy_missiles = [] ∧
       (step cfg sqrtFn rng a s).1.nb_missiles_launched = cfg.number) := by
    intro a s
    rw [show (step cfg sqrtFn rng a s).2 =
      ((step cfg sqrtFn rng a s).1.enemy_missiles.isEmpty &&
       ((step cfg sqrtFn rng a s).1.nb_missiles_launched == cfg.number)) from rfl]
    simp [List.isEmpty_iff]
  refine ⟨hiff, ?_⟩
  intro a s hdone acts a2
  obtain ⟨hm, hn⟩ := (hiff a s).mp hdone
  obtain ⟨hm2, hn2⟩ := runSteps_done_state cfg sqrtFn rng _ hm hn acts
  exact (step_done_state cfg sqrtFn rng a2 _ hm2 hn2).2.2

/-- Witness for C2: in the example scenario the impact step returns done
= true, and two further steps later done is still true. -/
theorem done_iff_empty_and_max_witness :
    (step cfg6 sqrt6 rng6 0 (s6state 2)).2 = true ∧
    (step cfg6 sqrt6 rng6 5
      (runSteps cfg6 sqrt6 rng6 (step cfg6 sqrt6 rng6 0 (s6state 2)).1 [1, 2])).2 = true :=
  ⟨by rw [scenario_tick6],
   (done_iff_empty_and_max cfg6 sqrt6 rng6).2 0 (s6state 2)
     (by rw [scenario_tick6]) [1, 2] 5⟩

/-- C6 counterexample: in the example scenario (one missile, launch
probability 1, speed 2, height 10, equal start and end x), after the
fifth step call the missile is still at y = 2, so it has not reached its
target at tick 5 as the claim states. -/
theorem scenario_tick5_counterexample :
    (runSteps cfg6 sqrt6 rng6 (reset sW) [0, 0, 0, 0, 0]).enemy_missiles = [m6 2] ∧
    ¬((m6 2).y = (m6 2).y1) := by
  constructor
  · rw [scenario_run5]
    rfl
  · norm_num [m6]

/-- C6 (amended): in the example scenario a missile launches at tick 1 at
y = 10 targeting y = 0 with purely vertical motion; its height after the
six step calls reads 10, 8, 6, 4, 2 and the batch is then empty: the
missile reaches y = 0 during the movement phase of tick 6 (its fifth
movement tick), is removed by the cleanup phase of that same call, and
done is false on ticks 1 through 5, true at tick 6 and on every later
tick. -/
theorem scenario_amended :
    stepTrace cfg6 sqrt6 rng6 (reset sW) [0, 0, 0, 0, 0, 0] =
      [([m6 10], 1, false), ([m6 8], 1, false), ([m6 6], 1, false),
       ([m6 4], 1, false), ([m6 2], 1, false), ([], 1, true)] ∧
    ((runSteps cfg6 sqrt6 rng6 (reset sW) [0, 0, 0, 0, 0]).enemy_missiles.map
      fun m => (moveMissile m).y) = [0] ∧
    (∀ acts a,
      (step cfg6 sqrt6 rng6 a
        (runSteps cfg6 sqrt6 rng6 (reset sW) ([0, 0, 0, 0, 0, 0] ++ acts))).2 = true) := by
  have e1 := scenario_tick1 0
  have e2 := scenario_tick_move 0 10 (by norm_num)
  have e3 := scenario_tick_move 0 8 (by norm_num)
  have e4 := scenario_tick_move 0 6 (by norm_num)
  have e5 := scenario_tick_move 0 4 (by norm_num)
  have e6 := scenario_tick6 0
  norm_num at e2 e3 e4 e5
  refine ⟨?_, ?_, ?_⟩
  · simp only [stepTrace, e1, e2, e3, e4, e5, e6]
    rfl
  · rw [scenario_run5]
    norm_num [s6state, m6, moveMissile, npSign, min_def, abs]
  · intro acts a
    rw [runSteps_append, scenario_run6]
    obtain ⟨hm, hn⟩ := runSteps_done_state cfg6 sqrt6 rng6 s6done rfl rfl acts
    exact (step_done_state cfg6 sqrt6 rng6 a _ hm hn).2.2

theorem step_nb_cases (cfg : Config) (sqrtFn : ℚ → ℚ) (rng : ℕ → ℚ)
    (a : ℕ) (s : EnemyMissiles) :
    (step cfg sqrtFn rng a s).1.nb_missiles_launched = s.nb_missiles_launched ∨
    ((step cfg sqrtFn rng a s).1.nb_missiles_launched = s.nb_missiles_launched + 1 ∧
      s.nb_missiles_launched < cfg.number) := by
  simp only [step, launch_missile]
  split_ifs with h1 h2
  · exact Or.inr ⟨rfl, h1⟩
  · exact Or.inl rfl
  · exact Or.inl rfl

theorem runSteps_nb_le (cfg : Config) (sqrtFn : ℚ → ℚ) (rng : ℕ → ℚ)
    (s : EnemyMissiles) (acts : List ℕ)
    (h : s.nb_missiles_launched ≤ cfg.number) :
    (runSteps cfg sqrtFn rng s acts).nb_missiles_launched ≤ cfg.number := by
  induction acts generalizing s with
  | nil => exact h
  | cons a rest ih =>
      rw [runSteps_cons]
      rcases step_nb_cases cfg sqrtFn rng a s with hc | ⟨hc, hlt⟩
      · exact ih _ (hc ▸ h)
      · exact ih _ (hc ▸ hlt)

/-- C5: after a reset the launch counter stays between 0 and the
configured NUMBER along every run; each single step leaves the counter
unchanged or increments it by exactly one, and an increment can only
happen from a counter strictly below NUMBER. -/
theorem launched_count_spec (cfg : Config) (sqrtFn : ℚ → ℚ) (rng : ℕ → ℚ) :
    (∀ s0 acts,
      0 ≤ (runSteps cfg sqrtFn rng (reset s0) acts).nb_missiles_launched ∧
      (runSteps cfg sqrtFn rng (reset s0) acts).nb_missiles_launched ≤ cfg.number) ∧
    (∀ a s,
      s.nb_missiles_launched ≤ (step cfg sqrtFn rng a s).1.nb_missiles_launched ∧
      (step cfg sqrtFn rng a s).1.nb_missiles_launched ≤ s.nb_missiles_launched + 1 ∧
      ((step cfg sqrtFn rng a s).1.nb_missiles_launched = s.nb_missiles_launched + 1 →
        s.nb_missiles_launched < cfg.number)) := by
  constructor
  · intro s0 acts
    refine ⟨Nat.zero_le _, ?_⟩
    exact runSteps_nb_le cfg sqrtFn rng (reset s0) acts (Nat.zero_le _)
  · intro a s
    rcases step_nb_cases cfg sqrtFn rng a s with hc | ⟨hc, hlt⟩ <;>
      rw [hc] <;> omega

/-- Witness for C5: concrete run of the example scenario; the first step
increments the counter from 0, which is indeed below NUMBER = 1. -/
theorem launched_count_spec_witness :
    ((runSteps cfg6 sqrt6 rng6 (reset sW) [0, 0]).nb_missiles_launched ≤ cfg6.number) ∧
    (reset sW).nb_missiles_launched < cfg6.number :=
  ⟨((launched_count_spec cfg6 sqrt6 rng6).1 sW [0, 0]).2,
   ((launched_count_spec cfg6 sqrt6 rng6).2 0 (reset sW)).2.2
     (by rw [scenario_tick1]; rfl)⟩

/-- The per-queue content of `advance_curriculum`: the pair of the active
range and the remaining queue evolves by popping the queue. -/
def popStep (p : (ℚ × ℚ) × List (ℚ × ℚ)) : (ℚ × ℚ) × List (ℚ × ℚ) :=
  popOr p.2

/-- The active range the schedule shows after k pops of a configured
queue q: entry k of q while it exists, the full range afterwards. -/
def curricAt (q : List (ℚ × ℚ)) (k : ℕ) : ℚ × ℚ :=
  if hk : k < q.length then q.get ⟨k, hk⟩ else (-(1/2 : ℚ), (1/2 : ℚ))

theorem advance_iterate (s : EnemyMissiles) (k : ℕ) :
    advance_curriculum^[k] s =
      { s with
        start_pos_range := (popStep^[k] (s.start_pos_range, s.start_pos_range_cur)).1
        start_pos_range_cur := (popStep^[k] (s.start_pos_range, s.start_pos_range_cur)).2
        end_pos_range := (popStep^[k] (s.end_pos_range, s.end_pos_range_cur)).1
        end_pos_range_cur := (popStep^[k] (s.end_pos_range, s.end_pos_range_cur)).2 } := by
  induction k with
  | zero => rfl
  | succ k ih =>
      rw [Function.iterate_succ_apply', Function.iterate_succ_apply',
        Function.iterate_succ_apply', ih]
      rfl

theorem popStep_iterate (a : ℚ × ℚ) (rest : List (ℚ × ℚ)) (k : ℕ) :
    popStep^[k] (a, rest) =
      (curricAt (a :: rest) k, (a :: rest).drop (k + 1)) := by
  induction k with
  | zero => simp [curricAt]
  | succ k ih =>
      rw [Function.iterate_succ_apply', ih]
      by_cases hk : k + 1 < (a :: rest).length
      · have hk3 : k < rest.length := by
          simp only [List.length_cons] at hk
          omega
        rw [List.drop_eq_getElem_cons hk]
        simp [popStep, popOr, curricAt, hk, hk3, List.get_eq_getElem]
      · have hlen : (a :: rest).length ≤ k + 1 := le_of_not_lt hk
        have hd1 : (a :: rest).drop (k + 1) = [] := List.drop_eq_nil_of_le hlen
        have hd2 : (a :: rest).drop (k + 2) = [] :=
          List.drop_eq_nil_of_le (le_trans hlen (by omega))
        rw [hd1, hd2]
        have hk3 : ¬(k < rest.length) := by
          simp only [List.length_cons] at hk
          omega
        simp [popStep, popOr, curricAt, hk, hk3]

/-- C7: starting from construction over configured queues, the active
ranges after k curriculum advances follow the configured entries in
order (entry 0 being installed by construction itself) and fall back to
the full (-1/2, 1/2) range once each queue is exhausted. -/
theorem curriculum_schedule (sq endq : List (ℚ × ℚ)) (s0 : EnemyMissiles)
    (h : initEnemyMissiles (some sq) (some endq) = some s0) (k : ℕ) :
    (advance_curriculum^[k] s0).start_pos_range = curricAt sq k ∧
    (advance_curriculum^[k] s0).end_pos_range = curricAt endq k := by
  cases sq with
  | nil => simp [initEnemyMissiles] at h
  | cons a arest =>
    cases endq with
    | nil => simp [initEnemyMissiles] at h
    | cons b brest =>
      simp only [initEnemyMissiles, Option.getD_some, Option.some.injEq] at h
      rw [advance_iterate]
      subst h
      constructor
      · simp only
        rw [popStep_iterate a arest k]
      · simp only
        rw [popStep_iterate b brest k]

/-- Concrete construction for the C7 witness: two configured start
entries, one configured end entry. -/
def s7 : EnemyMissiles :=
  { start_pos_range_cur := [(-(1/4 : ℚ), 0)]
    end_pos_range_cur := []
    start_pos_range := (0, 1/4)
    end_pos_range := (0, 0)
    enemy_missiles := []
    nb_missiles_launched := 0
    rng_idx := 0 }

/-- Witness for C7: with start queue [(0, 1/4), (-1/4, 0)] and end queue
[(0, 0)], after one advance the active ranges are the second start entry
and the full fallback end range. -/
theorem curriculum_schedule_witness :
    (advance_curriculum^[1] s7).start_pos_range =
      curricAt [(0, 1/4), (-(1/4 : ℚ), 0)] 1 ∧
    (advance_curriculum^[1] s7).end_pos_range = curricAt [((0 : ℚ), (0 : ℚ))] 1 :=
  curriculum_schedule [(0, 1/4), (-(1/4 : ℚ), 0)] [((0 : ℚ), (0 : ℚ))] s7 rfl 1

/-- Replace only the two curriculum queues of a state (the fields `step`
never reads nor writes). -/
def setQueues (s : EnemyMissiles) (q1 q2 : List (ℚ × ℚ)) : EnemyMissiles :=
  { s with start_pos_range_cur := q1, end_pos_range_cur := q2 }

theorem step_setQueues (cfg : Config) (sqrtFn : ℚ → ℚ) (rng : ℕ → ℚ)
    (a : ℕ) (s : EnemyMissiles) (q1 q2 : List (ℚ × ℚ)) :
    step cfg sqrtFn rng a (setQueues s q1 q2) =
      (setQueues (step cfg sqrtFn rng a s).1 q1 q2,
       (step cfg sqrtFn rng a s).2) := by
  rcases s with ⟨sq, endq, sr, er, ms, nb, ri⟩
  simp only [setQueues, step, launch_missile, launch_x0, launch_x1,
    launch_norm, launchNormSq, mkLaunchedMissile, uniform]
  split_ifs <;> rfl

theorem runSteps_setQueues (cfg : Config) (sqrtFn : ℚ → ℚ) (rng : ℕ → ℚ)
    (s : EnemyMissiles) (q1 q2 : List (ℚ × ℚ)) (acts : List ℕ) :
    runSteps cfg sqrtFn rng (setQueues s q1 q2) acts =
      setQueues (runSteps cfg sqrtFn rng s acts) q1 q2 := by
  induction acts generalizing s with
  | nil => rfl
  | cons a rest ih =>
      rw [runSteps_cons, runSteps_cons, step_setQueues]
      exact ih (step cfg sqrtFn rng a s).1

theorem stepTrace_setQueues (cfg : Config) (sqrtFn : ℚ → ℚ) (rng : ℕ → ℚ)
    (s : EnemyMissiles) (q1 q2 : List (ℚ × ℚ)) (acts : List ℕ) :
    stepTrace cfg sqrtFn rng (setQueues s q1 q2) acts =
      stepTrace cfg sqrtFn rng s acts := by
  induction acts generalizing s with
  | nil => rfl
  | cons a rest ih =>
      simp only [stepTrace, step_setQueues]
      rw [ih (step cfg sqrtFn rng a s).1]
      rfl

/-- C4: two runs that reset with the same seed (same random stream) and
then apply the same actions produce identical traces of batches, launch
counters and done flags, whatever the two prior episode states were, as
long as they carry the same active curriculum ranges (reset does not
touch the curriculum; the queues themselves are never read by step). -/
theorem reset_seed_determinism (cfg : Config) (sqrtFn : ℚ → ℚ)
    (randomStream : Option ℕ → ℕ → ℚ) (seed : Option ℕ)
    (s1 s2 : EnemyMissiles) (acts : List ℕ)
    (hstart : s1.start_pos_range = s2.start_pos_range)
    (hend : s1.end_pos_range = s2.end_pos_range) :
    stepTrace cfg sqrtFn (randomStream seed) (reset s1) acts =
      stepTrace cfg sqrtFn (randomStream seed) (reset s2) acts := by
  have h1 : reset s1 =
      setQueues (reset s2) s1.start_pos_range_cur s1.end_pos_range_cur := by
    rcases s1 with ⟨sq1, endq1, sr1, er1, ms1, nb1, ri1⟩
    rcases s2 with ⟨sq2, endq2, sr2, er2, ms2, nb2, ri2⟩
    simp only at hstart hend
    simp [reset, setQueues, hstart, hend]
  rw [h1, stepTrace_setQueues]

/-- Witness for C4: a mid-episode state with a missile in flight and a
fresh state with the same active ranges give byte-identical two-step
traces after reset with seed 42. -/
theorem reset_seed_determinism_witness :
    stepTrace cfg6 sqrt6 ((fun _ => rng6) (some 42)) (reset (s6state 5)) [0, 0] =
      stepTrace cfg6 sqrt6 ((fun _ => rng6) (some 42)) (reset sW) [0, 0] :=
  reset_seed_determinism cfg6 sqrt6 (fun _ => rng6) (some 42)
    (s6state 5) sW [0, 0] rfl rfl

/-- Degenerate configuration for the C9 counterexample: episode height 0
(and degenerate ranges pinned at x = 0 in `sW`), so the start of a launch
coincides with its target. -/
def cfg9 : Config :=
  { width := 20, height := 0, number := 1, proba_in := 1, speed := 2 }

/-- Square-root oracle for the degenerate scenario: the only argument is
0, whose square root is 0. -/
def sqrt9 : ℚ → ℚ := fun _ => 0

/-- C9 counterexample: a degenerate zero-distance launch (norm = 0) is
not stopped by any assertion: `_launch_missile` completes normally and
appends a missile, contradicting the claim that it guards the degenerate
case with an assertion that the norm is strictly positive. -/
theorem launch_no_guard_counterexample :
    launch_norm cfg9 sqrt9 rng6 sW = 0 ∧
    (launch_missile cfg9 sqrt9 rng6 sW).enemy_missiles.length =
      sW.enemy_missiles.length + 1 ∧
    (launch_missile cfg9 sqrt9 rng6 sW).nb_missiles_launched = 1 := by
  norm_num [launch_missile, launch_norm, launch_x0, launch_x1, launchNormSq,
    uniform, sqrt9, cfg9, sW]

/-- C9 (amended): `_launch_missile` has no assertion on the norm, but
whenever the configured episode height is strictly positive, the squared
start-to-target distance it feeds to the square root is strictly
positive, hence so is the computed norm (for any square-root routine
positive on positive inputs), and the unit-vector divisions never divide
by zero. -/
theorem launch_norm_pos (cfg : Config) (sqrtFn : ℚ → ℚ) (rng : ℕ → ℚ)
    (s : EnemyMissiles) (hh : 0 < cfg.height)
    (hsqrt : ∀ q, 0 < q → 0 < sqrtFn q) :
    0 < launchNormSq (launch_x0 cfg rng s) cfg.height (launch_x1 cfg rng s) 0 ∧
    0 < launch_norm cfg sqrtFn rng s := by
  have h1 : 0 < launchNormSq (launch_x0 cfg rng s) cfg.height
      (launch_x1 cfg rng s) 0 := by
    unfold launchNormSq
    have h2 : ((0 : ℚ) - cfg.height) ^ 2 = cfg.height ^ 2 := by ring
    have h3 : (0 : ℚ) < cfg.height ^ 2 := pow_pos hh 2
    have h4 : (0 : ℚ) ≤ (launch_x1 cfg rng s - launch_x0 cfg rng s) ^ 2 :=
      sq_nonneg _
    linarith
  exact ⟨h1, hsqrt _ h1⟩

/-- Witness for C9 (amended): the example-scenario configuration has
height 10 > 0 and a positive oracle, so the norm of any launch from any
state is positive. -/
theorem launch_norm_pos_witness :
    0 < launchNormSq (launch_x0 cfg6 rng6 sW) cfg6.height (launch_x1 cfg6 rng6 sW) 0 ∧
    0 < launch_norm cfg6 sqrt6 rng6 sW :=
  launch_norm_pos cfg6 sqrt6 rng6 sW (by norm_num [cfg6])
    (fun q hq => by norm_num [sqrt6])

/-- The current coordinate lies between the start and the target
coordinate, inclusively, on one axis. -/
def AxisBetween (a c b : ℚ) : Prop :=
  min a b ≤ c ∧ c ≤ max a b

/-- Invariant of every missile the module ever stores: the velocity on
each axis points from start to target, and the current position lies
between start and target on each axis. -/
def MissileOk (m : Missile) : Prop :=
  ((0 < m.vx → m.x0 ≤ m.x1) ∧ (m.vx < 0 → m.x1 ≤ m.x0)) ∧
  ((0 < m.vy → m.y0 ≤ m.y1) ∧ (m.vy < 0 → m.y1 ≤ m.y0)) ∧
  AxisBetween m.x0 m.x m.x1 ∧ AxisBetween m.y0 m.y m.y1

theorem stepAxis_between (s t c v : ℚ)
    (hdir1 : 0 < v → s ≤ t) (hdir2 : v < 0 → t ≤ s)
    (hb : AxisBetween s c t) :
    AxisBetween s (c + min (|v|) (|t - c|) * npSign v) t := by
  obtain ⟨h1, h2⟩ := hb
  rcases lt_trichotomy v 0 with hv | hv | hv
  · have hts : t ≤ s := hdir2 hv
    rw [min_eq_right hts] at h1
    rw [max_eq_left hts] at h2
    have habsv : |v| = -v := abs_of_neg hv
    have hd : |t - c| = c - t := by
      rw [abs_of_nonpos (by linarith)]
      ring
    have hsign : npSign v = -1 := by
      unfold npSign
      rw [if_pos hv]
    rw [habsv, hd, hsign]
    constructor
    · rw [min_eq_right hts]
      have hm1 : min (-v) (c - t) ≤ c - t := min_le_right _ _
      linarith
    · rw [max_eq_left hts]
      have hm2 : 0 ≤ min (-v) (c - t) := le_min (by linarith) (by linarith)
      linarith
  · rw [hv]
    have hsign : npSign 0 = 0 := by
      unfold npSign
      rw [if_neg (lt_irrefl 0), if_pos rfl]
    rw [hsign, mul_zero, add_zero]
    exact ⟨h1, h2⟩
  · have hst : s ≤ t := hdir1 hv
    rw [min_eq_left hst] at h1
    rw [max_eq_right hst] at h2
    have habsv : |v| = v := abs_of_pos hv
    have hd : |t - c| = t - c := abs_of_nonneg (by linarith)
    have hsign : npSign v = 1 := by
      unfold npSign
      rw [if_neg (not_lt.mpr hv.le), if_neg hv.ne.symm]
    rw [habsv, hd, hsign, mul_one]
    constructor
    · rw [min_eq_left hst]
      have hm1 : 0 ≤ min v (t - c) := le_min hv.le (by linarith)
      linarith
    · rw [max_eq_right hst]
      have hm2 : min v (t - c) ≤ t - c := min_le_right _ _
      linarith

theorem moveMissile_ok (m : Missile) (h : MissileOk m) :
    MissileOk (moveMissile m) := by
  obtain ⟨⟨hx1, hx2⟩, ⟨hy1, hy2⟩, hbx, hby⟩ := h
  exact ⟨⟨hx1, hx2⟩, ⟨hy1, hy2⟩,
    stepAxis_between m.x0 m.x1 m.x m.vx hx1 hx2 hbx,
    stepAxis_between m.y0 m.y1 m.y m.vy hy1 hy2 hby⟩

theorem mkLaunchedMissile_ok (speed x0 y0 x1 y1 n : ℚ)
    (hsp : 0 ≤ speed) (hn : 0 ≤ n) :
    MissileOk (mkLaunchedMissile speed x0 y0 x1 y1 n) := by
  simp only [MissileOk, mkLaunchedMissile, AxisBetween]
  refine ⟨⟨?_, ?_⟩, ⟨?_, ?_⟩, ?_, ?_⟩
  · intro hpos
    by_contra hlt
    have hq : (x1 - x0) / n ≤ 0 :=
      div_nonpos_of_nonpos_of_nonneg (by linarith [lt_of_not_le hlt]) hn
    have : speed * ((x1 - x0) / n) ≤ 0 := mul_nonpos_of_nonneg_of_nonpos hsp hq
    exact absurd hpos (not_lt.mpr this)
  · intro hneg
    by_contra hlt
    have hq : 0 ≤ (x1 - x0) / n :=
      div_nonneg (by linarith [lt_of_not_le hlt]) hn
    have : 0 ≤ speed * ((x1 - x0) / n) := mul_nonneg hsp hq
    exact absurd hneg (not_lt.mpr this)
  · intro hpos
    by_contra hlt
    have hq : (y1 - y0) / n ≤ 0 :=
      div_nonpos_of_nonpos_of_nonneg (by linarith [lt_of_not_le hlt]) hn
    have : speed * ((y1 - y0) / n) ≤ 0 := mul_nonpos_of_nonneg_of_nonpos hsp hq
    exact absurd hpos (not_lt.mpr this)
  · intro hneg
    by_contra hlt
    have hq : 0 ≤ (y1 - y0) / n :=
      div_nonneg (by linarith [lt_of_not_le hlt]) hn
    have : 0 ≤ speed * ((y1 - y0) / n) := mul_nonneg hsp hq
    exact absurd hneg (not_lt.mpr this)
  · exact ⟨min_le_left _ _, le_max_left _ _⟩
  · exact ⟨min_le_left _ _, le_max_left _ _⟩

/-- Every missile currently stored satisfies the kinematic invariant. -/
def StateOk (s : EnemyMissiles) : Prop :=
  ∀ m ∈ s.enemy_missiles, MissileOk m

theorem launchNormSq_nonneg (x0 y0 x1 y1 : ℚ) :
    0 ≤ launchNormSq x0 y0 x1 y1 := by
  unfold launchNormSq
  positivity

theorem step_state_ok (cfg : Config) (sqrtFn : ℚ → ℚ) (rng : ℕ → ℚ)
    (a : ℕ) (s : EnemyMissiles) (hsp : 0 ≤ cfg.speed)
    (hsq : ∀ q, 0 ≤ q → 0 ≤ sqrtFn q) (h : StateOk s) :
    StateOk (step cfg sqrtFn rng a s).1 := by
  intro m hm
  rw [step_enemy_missiles_eq] at hm
  have hm2 := List.mem_of_mem_filter hm
  split_ifs at hm2 with h1 h2
  · rcases List.mem_append.mp hm2 with hmem | hmem
    · obtain ⟨m0, hm0, rfl⟩ := List.mem_map.mp hmem
      exact moveMissile_ok m0 (h m0 hm0)
    · have hml : m = mkLaunchedMissile cfg.speed _ cfg.height _ 0 _ :=
        List.mem_singleton.mp hmem
      rw [hml]
      exact mkLaunchedMissile_ok _ _ _ _ _ _ hsp
        (hsq _ (launchNormSq_nonneg _ _ _ _))
  · obtain ⟨m0, hm0, rfl⟩ := List.mem_map.mp hm2
    exact moveMissile_ok m0 (h m0 hm0)
  · obtain ⟨m0, hm0, rfl⟩ := List.mem_map.mp hm2
    exact moveMissile_ok m0 (h m0 hm0)

theorem runSteps_state_ok (cfg : Config) (sqrtFn : ℚ → ℚ) (rng : ℕ → ℚ)
    (s : EnemyMissiles) (acts : List ℕ) (hsp : 0 ≤ cfg.speed)
    (hsq : ∀ q, 0 ≤ q → 0 ≤ sqrtFn q) (h : StateOk s) :
    StateOk (runSteps cfg sqrtFn rng s acts) := by
  induction acts generalizing s with
  | nil => exact h
  | cons a rest ih =>
      rw [runSteps_cons]
      exact ih _ (step_state_ok cfg sqrtFn rng a s hsp hsq h)

/-- C1: along every run rooted at a reset, with a nonnegative configured
speed and a square-root oracle nonnegative on nonnegative inputs, every
stored missile has its current position between its start and its target
on each axis independently (no overshoot), whatever the speed magnitude
relative to the remaining distance. -/
theorem no_overshoot (cfg : Config) (sqrtFn : ℚ → ℚ) (rng : ℕ → ℚ)
    (hsp : 0 ≤ cfg.speed) (hsq : ∀ q, 0 ≤ q → 0 ≤ sqrtFn q)
    (s0 : EnemyMissiles) (acts : List ℕ) :
    ∀ m ∈ (runSteps cfg sqrtFn rng (reset s0) acts).enemy_missiles,
      AxisBetween m.x0 m.x m.x1 ∧ AxisBetween m.y0 m.y m.y1 := by
  intro m hm
  have hreset : StateOk (reset s0) := by
    intro m0 hm0
    simp [reset] at hm0
  have h := runSteps_state_ok cfg sqrtFn rng (reset s0) acts hsp hsq hreset m hm
  exact ⟨h.2.2.1, h.2.2.2⟩

/-- Witness for C1: the example-scenario missile after two step calls
sits at y = 8, between its start y = 10 and its target y = 0, and at
x = 0 = start x = target x. -/
theorem no_overshoot_witness :
    AxisBetween (m6 8).x0 (m6 8).x (m6 8).x1 ∧
    AxisBetween (m6 8).y0 (m6 8).y (m6 8).y1 :=
  no_overshoot cfg6 sqrt6 rng6 (by norm_num [cfg6])
    (fun q hq => by norm_num [sqrt6]) sW [0, 0] (m6 8)
    (by
      have e2 := scenario_tick_move 0 10 (by norm_num)
      norm_num at e2
      have hrun : runSteps cfg6 sqrt6 rng6 (reset sW) [0, 0] = s6state 8 := by
        simp only [runSteps_cons, runSteps, scenario_tick1, e2]
      rw [hrun]
      exact List.mem_singleton.mpr rfl)

/-- Closed form of one axis of a launched missile after j movement
ticks: the coordinate has advanced from s toward t by the fraction
min(j*speed, n) / n of the way. -/
def cAxis (s t speed n : ℚ) (j : ℕ) : ℚ :=
  s + min ((j : ℚ) * speed) n * ((t - s) / n)

/-- Squared Euclidean distance from the current position of a missile to
its target. -/
def distSq (m : Missile) : ℚ :=
  (m.x1 - m.x) ^ 2 + (m.y1 - m.y) ^ 2

theorem minAdd (a b n : ℚ) (hb : 0 ≤ b) :
    min a n + min b (n - min a n) = min (a + b) n := by
  rcases le_total a n with h | h
  · calc min a n + min b (n - min a n)
        = a + min b (n - a) := by rw [min_eq_left h]
      _ = min (a + b) (a + (n - a)) := (min_add_add_left a b (n - a)).symm
      _ = min (a + b) n := by rw [show a + (n - a) = n from by ring]
  · rw [min_eq_right h, sub_self, min_eq_right hb, add_zero,
      min_eq_right (by linarith)]

theorem stepAxis_cAxis (s t speed n : ℚ) (hn : 0 < n) (hsp : 0 < speed)
    (j : ℕ) :
    cAxis s t speed n j +
      min (|speed * ((t - s) / n)|) (|t - cAxis s t speed n j|) *
        npSign (speed * ((t - s) / n)) =
      cAxis s t speed n (j + 1) := by
  set M := min ((j : ℚ) * speed) n with hMdef
  have hM0 : 0 ≤ M := le_min (by positivity) hn.le
  have hMn : M ≤ n := min_le_right _ _
  have htc : t - cAxis s t speed n j = (t - s) * ((n - M) / n) := by
    unfold cAxis
    rw [← hMdef]
    field_simp
    ring
  have hkey : min (|speed * ((t - s) / n)|) (|t - cAxis s t speed n j|) *
      npSign (speed * ((t - s) / n)) = ((t - s) / n) * min speed (n - M) := by
    rcases lt_trichotomy (t - s) 0 with hu | hu | hu
    · have hv : speed * ((t - s) / n) < 0 :=
        mul_neg_of_pos_of_neg hsp (div_neg_of_neg_of_pos hu hn)
      have hsign : npSign (speed * ((t - s) / n)) = -1 := by
        unfold npSign
        rw [if_pos hv]
      have h1 : |speed * ((t - s) / n)| = (-(t - s) / n) * speed := by
        rw [abs_of_neg hv]
        ring
      have h2 : |t - cAxis s t speed n j| = (-(t - s) / n) * (n - M) := by
        rw [htc, abs_of_nonpos
          (mul_nonpos_of_nonpos_of_nonneg hu.le (div_nonneg (by linarith) hn.le))]
        ring
      have hk0 : (0 : ℚ) ≤ -(t - s) / n := div_nonneg (by linarith) hn.le
      rw [h1, h2, hsign, ← mul_min_of_nonneg _ _ hk0]
      ring
    · have hv : speed * ((t - s) / n) = 0 := by rw [hu]; simp
      have hsign : npSign (speed * ((t - s) / n)) = 0 := by
        rw [hv]
        unfold npSign
        rw [if_neg (lt_irrefl 0), if_pos rfl]
      rw [hsign, mul_zero, hu]
      simp
    · have hv : 0 < speed * ((t - s) / n) := mul_pos hsp (div_pos hu hn)
      have hsign : npSign (speed * ((t - s) / n)) = 1 := by
        unfold npSign
        rw [if_neg (not_lt.mpr hv.le), if_neg hv.ne.symm]
      have h1 : |speed * ((t - s) / n)| = ((t - s) / n) * speed := by
        rw [abs_of_pos hv]
        ring
      have h2 : |t - cAxis s t speed n j| = ((t - s) / n) * (n - M) := by
        rw [htc, abs_of_nonneg
          (mul_nonneg hu.le (div_nonneg (by linarith) hn.le))]
        ring
      have hk0 : (0 : ℚ) ≤ (t - s) / n := div_nonneg hu.le hn.le
      rw [h1, h2, hsign, mul_one, ← mul_min_of_nonneg _ _ hk0]
  rw [hkey]
  unfold cAxis
  rw [← hMdef]
  have hc : ((j + 1 : ℕ) : ℚ) = (j : ℚ) + 1 := by push_cast; ring
  rw [hc, show ((j : ℚ) + 1) * speed = (j : ℚ) * speed + speed from by ring,
    ← minAdd ((j : ℚ) * speed) speed n hsp.le, ← hMdef]
  ring

theorem moveMissile_iterate (speed x0 y0 x1 y1 n : ℚ) (hn : 0 < n)
    (hsp : 0 < speed) (j : ℕ) :
    moveMissile^[j] (mkLaunchedMissile speed x0 y0 x1 y1 n) =
      { x0 := x0, y0 := y0,
        x := cAxis x0 x1 speed n j, y := cAxis y0 y1 speed n j,
        x1 := x1, y1 := y1,
        vx := speed * ((x1 - x0) / n), vy := speed * ((y1 - y0) / n) } := by
  have h0 : ∀ sC tC : ℚ, cAxis sC tC speed n 0 = sC := by
    intro sC tC
    unfold cAxis
    rw [Nat.cast_zero, zero_mul, min_eq_left hn.le, zero_mul, add_zero]
  induction j with
  | zero =>
      rw [Function.iterate_zero_apply, h0 x0 x1, h0 y0 y1]
      rfl
  | succ j ih =>
      rw [Function.iterate_succ_apply', ih]
      unfold moveMissile
      simp only [Missile.mk.injEq, and_true, true_and]
      exact ⟨stepAxis_cAxis x0 x1 speed n hn hsp j,
        stepAxis_cAxis y0 y1 speed n hn hsp j⟩

theorem cAxis_eq_target (s t speed n : ℚ) (hn : 0 < n) (j : ℕ)
    (hj : n ≤ (j : ℚ) * speed) :
    cAxis s t speed n j = t := by
  unfold cAxis
  rw [min_eq_right hj]
  field_simp

theorem cAxis_ne_target (s t speed n : ℚ) (hn : 0 < n) (hst : s ≠ t)
    (j : ℕ) (hj : (j : ℚ) * speed < n) :
    cAxis s t speed n j ≠ t := by
  unfold cAxis
  rw [min_eq_left hj.le]
  intro h
  have h3 : (t - s) * (1 - (j : ℚ) * speed / n) = 0 := by
    linear_combination -h
  rcases mul_eq_zero.mp h3 with h4 | h4
  · exact hst (sub_eq_zero.mp h4).symm
  · have h5 : (j : ℚ) * speed = n := by
      field_simp at h4
      linarith
    linarith

theorem distSq_closed (speed x0 y0 x1 y1 n : ℚ) (hn : 0 < n)
    (hsp : 0 < speed) (hnsq : n ^ 2 = launchNormSq x0 y0 x1 y1) (j : ℕ) :
    distSq (moveMissile^[j] (mkLaunchedMissile speed x0 y0 x1 y1 n)) =
      (n - min ((j : ℚ) * speed) n) ^ 2 := by
  rw [launchNormSq] at hnsq
  rw [moveMissile_iterate speed x0 y0 x1 y1 n hn hsp j]
  unfold distSq cAxis
  set M := min ((j : ℚ) * speed) n with hMdef
  calc (x1 - (x0 + M * ((x1 - x0) / n))) ^ 2 +
        (y1 - (y0 + M * ((y1 - y0) / n))) ^ 2
      = ((x1 - x0) ^ 2 + (y1 - y0) ^ 2) * ((n - M) / n) ^ 2 := by
        field_simp
        ring
    _ = n ^ 2 * ((n - M) / n) ^ 2 := by rw [← hnsq]
    _ = (n - M) ^ 2 := by
        rw [div_pow, mul_comm, div_mul_cancel₀ _ (pow_ne_zero 2 hn.ne.symm)]

/-- C3: a missile produced by the launch routine, with norm n equal to
the Euclidean start-to-target distance and positive configured speed,
reaches its target exactly on movement tick ceil(n / speed): before that
tick it is never at the target, its squared distance to the target
follows (n - min(j*speed, n))^2, strictly decreasing on every tick until
arrival, and never increasing on any tick. -/
theorem missile_arrival (x0 y0 x1 y1 n speed : ℚ) (m : Missile) (T : ℕ)
    (hn : 0 < n) (hsp : 0 < speed)
    (hnsq : n ^ 2 = launchNormSq x0 y0 x1 y1)
    (hm : m = mkLaunchedMissile speed x0 y0 x1 y1 n)
    (hT : T = ⌈n / speed⌉₊) :
    ((moveMissile^[T] m).x = x1 ∧ (moveMissile^[T] m).y = y1) ∧
    (∀ j, j < T → ¬((moveMissile^[j] m).x = x1 ∧ (moveMissile^[j] m).y = y1)) ∧
    (∀ j, distSq (moveMissile^[j] m) = (n - min ((j : ℚ) * speed) n) ^ 2) ∧
    (∀ j, j < T → distSq (moveMissile^[j + 1] m) < distSq (moveMissile^[j] m)) ∧
    (∀ j, distSq (moveMissile^[j + 1] m) ≤ distSq (moveMissile^[j] m)) := by
  subst hm
  have hTge : n ≤ (T : ℚ) * speed := by
    rw [hT]
    have h1 : n / speed ≤ ((⌈n / speed⌉₊ : ℕ) : ℚ) := Nat.le_ceil _
    calc n = n / speed * speed := by field_simp
      _ ≤ ((⌈n / speed⌉₊ : ℕ) : ℚ) * speed :=
          mul_le_mul_of_nonneg_right h1 hsp.le
  have hTlt : ∀ j : ℕ, j < T → (j : ℚ) * speed < n := by
    intro j hj
    rw [hT] at hj
    have h1 : (j : ℚ) < n / speed := Nat.lt_ceil.mp hj
    calc (j : ℚ) * speed < n / speed * speed :=
          mul_lt_mul_of_pos_right h1 hsp
      _ = n := by field_simp
  have hne : x0 ≠ x1 ∨ y0 ≠ y1 := by
    by_contra hboth
    push_neg at hboth
    rw [launchNormSq, hboth.1, hboth.2, sub_self, sub_self] at hnsq
    have h0 : n ^ 2 = 0 := by rw [hnsq]; ring
    exact hn.ne.symm ((pow_eq_zero_iff (by norm_num)).mp h0)
  refine ⟨?_, ?_, ?_, ?_, ?_⟩
  · rw [moveMissile_iterate speed x0 y0 x1 y1 n hn hsp T]
    exact ⟨cAxis_eq_target x0 x1 speed n hn T hTge,
      cAxis_eq_target y0 y1 speed n hn T hTge⟩
  · intro j hj
    rw [moveMissile_iterate speed x0 y0 x1 y1 n hn hsp j]
    rcases hne with hx | hy
    · intro hcon
      exact cAxis_ne_target x0 x1 speed n hn hx j (hTlt j hj) hcon.1
    · intro hcon
      exact cAxis_ne_target y0 y1 speed n hn hy j (hTlt j hj) hcon.2
  · intro j
    exact distSq_closed speed x0 y0 x1 y1 n hn hsp hnsq j
  · intro j hj
    rw [distSq_closed speed x0 y0 x1 y1 n hn hsp hnsq j,
      distSq_closed speed x0 y0 x1 y1 n hn hsp hnsq (j + 1)]
    have hjn : (j : ℚ) * speed < n := hTlt j hj
    have hcast : (((j + 1 : ℕ)) : ℚ) * speed = (j : ℚ) * speed + speed := by
      push_cast
      ring
    have hlt : min ((j : ℚ) * speed) n < min ((((j + 1 : ℕ)) : ℚ) * speed) n := by
      rw [min_eq_left hjn.le, hcast]
      exact lt_min (by linarith) hjn
    have h1 : 0 ≤ n - min ((((j + 1 : ℕ)) : ℚ) * speed) n := by
      have hr := min_le_right ((((j + 1 : ℕ)) : ℚ) * speed) n
      linarith
    have h2 : n - min ((((j + 1 : ℕ)) : ℚ) * speed) n <
        n - min ((j : ℚ) * speed) n := by
      linarith
    nlinarith [h1, h2]
  · intro j
    rw [distSq_closed speed x0 y0 x1 y1 n hn hsp hnsq j,
      distSq_closed speed x0 y0 x1 y1 n hn hsp hnsq (j + 1)]
    have hmono : min ((j : ℚ) * speed) n ≤ min (((j + 1 : ℕ) : ℚ) * speed) n := by
      apply min_le_min _ le_rfl
      have : ((j : ℚ)) ≤ ((j + 1 : ℕ) : ℚ) := by push_cast; linarith
      exact mul_le_mul_of_nonneg_right this hsp.le
    have h1 : 0 ≤ n - min (((j + 1 : ℕ) : ℚ) * speed) n := by
      have := min_le_right (((j + 1 : ℕ) : ℚ) * speed) n
      linarith
    have h2 : n - min (((j + 1 : ℕ) : ℚ) * speed) n ≤ n - min ((j : ℚ) * speed) n := by
      linarith
    exact pow_le_pow_left h1 h2 2

/-- Witness for C3: the missile launched from (0, 4) toward (3, 0) has
distance 5 and speed 2, so it arrives exactly on movement tick
ceil(5 / 2) = 3, never earlier, with strictly decreasing distance. -/
theorem missile_arrival_witness :
    ((moveMissile^[3] (mkLaunchedMissile 2 0 4 3 0 5)).x = 3 ∧
     (moveMissile^[3] (mkLaunchedMissile 2 0 4 3 0 5)).y = 0) ∧
    (∀ j, j < 3 → ¬((moveMissile^[j] (mkLaunchedMissile 2 0 4 3 0 5)).x = 3 ∧
      (moveMissile^[j] (mkLaunchedMissile 2 0 4 3 0 5)).y = 0)) ∧
    (∀ j, distSq (moveMissile^[j] (mkLaunchedMissile 2 0 4 3 0 5)) =
      (5 - min ((j : ℚ) * 2) 5) ^ 2) ∧
    (∀ j, j < 3 → distSq (moveMissile^[j + 1] (mkLaunchedMissile 2 0 4 3 0 5)) <
      distSq (moveMissile^[j] (mkLaunchedMissile 2 0 4 3 0 5))) ∧
    (∀ j, distSq (moveMissile^[j + 1] (mkLaunchedMissile 2 0 4 3 0 5)) ≤
      distSq (moveMissile^[j] (mkLaunchedMissile 2 0 4 3 0 5))) :=
  missile_arrival 0 4 3 0 5 2 (mkLaunchedMissile 2 0 4 3 0 5) 3
    (by norm_num) (by norm_num) (by norm_num [launchNormSq]) rfl
    (by
      symm
      rw [Nat.ceil_eq_iff (by norm_num)]
      norm_num)
